import Mathlib

/-!
Glyph header generator (`FontToGlyph.cpp`): embedding and verified properties.

The development embeds the command-line tool that parses a comma-separated list of
hexadecimal codepoints, rasterizes each one through FreeType and writes a C header
with one byte array and five scalar metrics per glyph.

* Text is `List Char`, one `Char` for one `char`; `std::cerr` and `std::cout` are the
  lists of lines written.
* The output file stream is an explicit state (`OStream`) carrying the text written
  so far together with the formatting state (`std::hex`/`std::dec`, `std::setw`,
  `std::setfill`).
* FreeType and the file system are parameters (`World`); the C library function
  `strtoul` behind `std::stoul` is modelled after ISO C.
* Integer widths are a parameter (`DataModel`); arithmetic on `unsigned int`,
  `unsigned long` and the narrowing conversions are written with explicit `% 2 ^ w`.
-/

namespace FontToGlyph

/-! # Part 1: the program -/

/-! ## Integer widths -/

/-- Widths in bits of the integer types the program uses: `intBits` for `int` and
`unsigned int`, `longBits` for `long` (`FT_Pos`) and `unsigned long`, with the minimum
widths the language guarantees. -/
structure DataModel where
  intBits : Nat
  longBits : Nat
  int_ge : 16 ≤ intBits
  long_ge : 32 ≤ longBits
  int_le_long : intBits ≤ longBits
deriving DecidableEq

/-- The LP64 data model of 64-bit Linux and macOS: 32-bit `int`, 64-bit `long`. -/
def LP64 : DataModel := ⟨32, 64, by decide, by decide, by decide⟩

/-- `std::getline(ss, item, ',')` on the remaining characters of the stream: `none`
when no character can be extracted (the stream is at its end, the loop condition is
false); otherwise the characters before the first `','` and the stream after that
delimiter, which is extracted and discarded. -/
def getline (ss : List Char) : Option (List Char × List Char) :=
  if ss = [] then none
  else some (ss.takeWhile (fun c => c != ','), (ss.dropWhile (fun c => c != ',')).drop 1)

/-- Membership in the character set `" \t"` of the two trimming calls. -/
def isSpaceTab (c : Char) : Bool := c = ' ' || c = '\t'

/-- `item.find_first_not_of(" \t")`; `none` stands for `std::string::npos`. -/
def find_first_not_of : List Char → Option Nat
  | [] => none
  | c :: cs => if isSpaceTab c then (find_first_not_of cs).map (· + 1) else some 0

/-- `item.find_last_not_of(" \t")`; `none` stands for `std::string::npos`. -/
def find_last_not_of : List Char → Option Nat
  | [] => none
  | c :: cs =>
    match find_last_not_of cs with
    | some k => some (k + 1)
    | none => if isSpaceTab c then none else some 0

/-- The two `erase` calls of lines 19-20: `item.erase(0, find_first_not_of(" \t"))`
(a count of `npos` erases the whole string) followed by
`item.erase(find_last_not_of(" \t") + 1)` (`npos + 1` wraps to position `0`). -/
def trimItem (item : List Char) : List Char :=
  let item1 := match find_first_not_of item with
    | none => []
    | some k => item.drop k
  let pos := match find_last_not_of item1 with
    | none => 0
    | some k => k + 1
  item1.take pos

/-- `isspace` in the "C" locale, the white space `strtoul` skips. -/
def isspace (c : Char) : Bool :=
  c = ' ' || c = '\t' || c = '\n' || c = '\x0b' || c = '\x0c' || c = '\r'

/-- Value of a character as a base-16 digit, if it is one. -/
def hexValue (c : Char) : Option Nat :=
  if '0' ≤ c ∧ c ≤ '9' then some (c.toNat - '0'.toNat)
  else if 'a' ≤ c ∧ c ≤ 'f' then some (c.toNat - 'a'.toNat + 10)
  else if 'A' ≤ c ∧ c ≤ 'F' then some (c.toNat - 'A'.toNat + 10)
  else none

/-- The digit values of the longest prefix made of base-16 digits. -/
def leadingHexDigits : List Char → List Nat
  | [] => []
  | c :: cs =>
    match hexValue c with
    | some d => d :: leadingHexDigits cs
    | none => []

/-- The number denoted by a sequence of base-16 digit values. -/
def digitsValue (ds : List Nat) : Nat := ds.foldl (fun acc d => acc * 16 + d) 0

/-- What a call `strtoul(nptr, &endptr, 16)` reports. -/
structure StrtoulResult where
  value : Nat
  converted : Bool
  erange : Bool
deriving DecidableEq, Repr

/-- The C library function `strtoul(nptr, &endptr, 16)` (ISO C 7.22.1.4): skip
white space, accept one optional sign, accept an optional `0x`/`0X` prefix when a
hexadecimal digit follows it, convert the longest run of hexadecimal digits and ignore
whatever follows. `converted` is `endptr != nptr`; `erange` is `errno == ERANGE`, set
when the magnitude exceeds `ULONG_MAX`; a leading minus sign negates the value in
`unsigned long`. -/
def strtoul (dm : DataModel) (nptr : List Char) : StrtoulResult :=
  let s0 := nptr.dropWhile isspace
  let signed : Bool × List Char :=
    match s0 with
    | '-' :: r => (true, r)
    | '+' :: r => (false, r)
    | _ => (false, s0)
  let s1 := signed.2
  let s2 :=
    match s1 with
    | '0' :: x :: h :: r =>
      if (x = 'x' || x = 'X') && (hexValue h).isSome then h :: r else s1
    | _ => s1
  let ds := leadingHexDigits s2
  if ds = [] then ⟨0, false, false⟩
  else
    let v := digitsValue ds
    if 2 ^ dm.longBits ≤ v then ⟨2 ^ dm.longBits - 1, true, true⟩
    else ⟨if signed.1 then (2 ^ dm.longBits - v) % 2 ^ dm.longBits else v, true, false⟩

/-- The exceptions `std::stoul` throws. -/
inductive StoulError where
  | invalid_argument
  | out_of_range
deriving DecidableEq, Repr

deriving instance DecidableEq for Except

/-- The call `std::stoul(item, nullptr, 16)`: `strtoul` on the characters of `item`,
`std::invalid_argument` when no conversion was performed, `std::out_of_range` when
`strtoul` reported `ERANGE`. -/
def stoul (dm : DataModel) (item : List Char) : Except StoulError Nat :=
  let r := strtoul dm item
  if !r.converted then .error .invalid_argument
  else if r.erange then .error .out_of_range
  else .ok r.value

/-! ## `parseCodepoints` (lines 12-29) -/

/-- The text of the diagnostic line of the `catch` block (line 25). -/
def invalidCodepointLine (item : List Char) : List Char :=
  "ERROR: Invalid codepoint format: ".toList ++ item

/-- The `while (std::getline(ss, item, ','))` loop of `parseCodepoints` (lines 16-27),
run on the remaining stream `ss` with the vector `codepoints` and the lines written to
`std::cerr` so far. The `unsigned long` returned by `std::stoul` is narrowed to
`unsigned int` by the initialisation of `codepoint`. -/
def parseLoop (dm : DataModel) (ss : List Char) (codepoints : List Nat)
    (cerr : List (List Char)) : List Nat × List (List Char) :=
  match h : getline ss with
  | none => (codepoints, cerr)
  | some (item, rest) =>
    let item := trimItem item
    match stoul dm item with
    | .ok v => parseLoop dm rest (codepoints ++ [v % 2 ^ dm.intBits]) cerr
    | .error _ => parseLoop dm rest codepoints (cerr ++ [invalidCodepointLine item])
termination_by ss.length
decreasing_by
  all_goals
    simp_wf
    unfold getline at h
    split at h
    · cases h
    · simp only [Option.some.injEq, Prod.mk.injEq] at h
      obtain ⟨-, hrest⟩ := h
      have hle := (List.dropWhile_sublist (l := ss) (fun c => c != ',')).length_le
      have hpos : 0 < ss.length := List.length_pos.2 (by assumption)
      rw [← hrest, List.length_drop]
      omega

/-- The function `parseCodepoints` (lines 12-29): the returned vector and the lines it
writes to `std::cerr`. -/
def parseCodepoints (dm : DataModel) (codepointStr : List Char) :
    List Nat × List (List Char) :=
  parseLoop dm codepointStr [] []

/-! ## The output stream -/

/-- State of a `std::ostream`: the characters written so far and the formatting state
the program changes: the base field (`std::hex` or `std::dec`), the field width set by
`std::setw` and the fill character set by `std::setfill`. -/
structure OStream where
  buf : List Char
  hexMode : Bool
  width : Nat
  fill : Char
deriving DecidableEq, Repr

namespace OStream

/-- A freshly opened stream: nothing written, decimal, width 0, fill `' '`. -/
def init : OStream := ⟨[], false, 0, ' '⟩

/-- A formatted insertion of the text `txt`: it is padded on the left with the fill
character up to the field width (the default adjustment), and the width is reset. -/
def insert (os : OStream) (txt : List Char) : OStream :=
  { os with buf := os.buf ++ (List.replicate (os.width - txt.length) os.fill ++ txt), width := 0 }

/-- The call `os << s` for a string or string literal. -/
def str (os : OStream) (s : List Char) : OStream := os.insert s

/-- The manipulator `os << std::hex`. -/
def hex (os : OStream) : OStream := { os with hexMode := true }

/-- The manipulator `os << std::dec`. -/
def dec (os : OStream) : OStream := { os with hexMode := false }

/-- The manipulator `os << std::setw(n)`. -/
def setw (os : OStream) (n : Nat) : OStream := { os with width := n }

/-- The manipulator `os << std::setfill(c)`. -/
def setfill (os : OStream) (c : Char) : OStream := { os with fill := c }

/-- The call `os << n` for a value of an unsigned integer type: lowercase hexadecimal
digits under `std::hex`, decimal digits under `std::dec`, no prefix. -/
def unsigned (os : OStream) (n : Nat) : OStream :=
  os.insert (if os.hexMode then Nat.toDigits 16 n else Nat.toDigits 10 n)

/-- The call `os << i` for a value of a signed integer type of `bits` bits: under
`std::hex` the digits of the value converted to the unsigned type, under `std::dec`
the decimal digits with a leading `-` for a negative value. -/
def signed (os : OStream) (bits : Nat) (i : Int) : OStream :=
  os.insert
    (if os.hexMode then Nat.toDigits 16 (i % (2 : Int) ^ bits).toNat
     else if i < 0 then '-' :: Nat.toDigits 10 i.natAbs
     else Nat.toDigits 10 i.toNat)

end OStream

/-! ## FreeType and the glyph emitter (lines 114-144) -/

/-- The fields of `face->glyph` the program reads: `bitmap.buffer`, `bitmap.width`,
`bitmap.rows`, `bitmap_left`, `bitmap_top` and `advance.x` (in 1/64 pixel). -/
structure GlyphSlot where
  buffer : List Nat
  width : Nat
  rows : Nat
  bitmap_left : Int
  bitmap_top : Int
  advance_x : Int
deriving DecidableEq, Repr

/-- The external world of the program: the FreeType calls and the file system. A
FreeType error code of `0` is success. `FT_New_Face` gives `none` on a non-zero error
code. `FT_Load_Char face c` is the call with `FT_LOAD_RENDER`; it gives the error code
and the face after the call, whose glyph slot is `glyph`. `canOpen path` tells whether
`std::ofstream outFile(path)` opens. -/
structure World (Face : Type) where
  FT_Init_FreeType : Nat
  FT_New_Face : List Char → Option Face
  FT_Set_Pixel_Sizes : Face → Nat → Nat → Face
  FT_Load_Char : Face → Nat → Nat × Face
  glyph : Face → GlyphSlot
  canOpen : List Char → Bool

/-- The body of the byte loop (lines 131-133) for index `i`. `size - 1` is computed in
`unsigned int`, as is `i + 1`. A read past the end of the buffer is modelled as 0. -/
def writeByte (dm : DataModel) (buffer : List Nat) (size : Nat) (outFile : OStream)
    (i : Nat) : OStream :=
  let sizeMinus1 := (size + 2 ^ dm.intBits - 1) % 2 ^ dm.intBits
  let out1 := ((((outFile.str "0x".toList).hex).setw 2).setfill '0').signed dm.intBits
    (Int.ofNat (buffer.getD i 0))
  let out2 := if i < sizeMinus1 then out1.str ", ".toList else out1
  if (i + 1) % 2 ^ dm.intBits % 16 = 0 ∧ i < sizeMinus1 then out2.str "\n    ".toList
  else out2

/-- The loop `for (unsigned int i = 0; i < size; ++i)` of lines 130-134. -/
def writeBytes (dm : DataModel) (buffer : List Nat) (size : Nat) (outFile : OStream) :
    OStream :=
  (List.range size).foldl (writeByte dm buffer size) outFile

/-- The array declaration of one glyph (lines 122-135). -/
def writeArray (dm : DataModel) (outFile : OStream) (codepoint : Nat) (slot : GlyphSlot) :
    OStream :=
  let buffer := slot.buffer
  let width := slot.width
  let height := slot.rows
  let size := (width * height) % 2 ^ dm.intBits
  let out1 := (((outFile.str "static const unsigned char glyph_U".toList).hex).unsigned
    codepoint).str "[] = \x7b\n    ".toList
  let out2 := writeBytes dm buffer size out1
  out2.str "\n\x7d;\n".toList

/-- The five metric declarations of one glyph (lines 138-143). `advance.x >> 6` is the
arithmetic right shift of a `long`. -/
def writeMetrics (dm : DataModel) (outFile : OStream) (codepoint : Nat) (slot : GlyphSlot) :
    OStream :=
  let width := slot.width
  let height := slot.rows
  let out0 := outFile.dec
  let out1 := ((((((out0.str "static const int glyph_U".toList).hex).unsigned codepoint).str
    "_width = ".toList).dec).unsigned width).str ";\n".toList
  let out2 := ((((((out1.str "static const int glyph_U".toList).hex).unsigned codepoint).str
    "_height = ".toList).dec).unsigned height).str ";\n".toList
  let out3 := ((((((out2.str "static const int glyph_U".toList).hex).unsigned codepoint).str
    "_bearingX = ".toList).dec).signed dm.intBits slot.bitmap_left).str ";\n".toList
  let out4 := ((((((out3.str "static const int glyph_U".toList).hex).unsigned codepoint).str
    "_bearingY = ".toList).dec).signed dm.intBits slot.bitmap_top).str ";\n".toList
  ((((((out4.str "static const int glyph_U".toList).hex).unsigned codepoint).str
    "_advance = ".toList).dec).signed dm.longBits (slot.advance_x >>> (6 : Nat))).str ";\n\n".toList

/-- Everything written for one successfully loaded glyph (lines 122-143). -/
def writeGlyph (dm : DataModel) (outFile : OStream) (codepoint : Nat) (slot : GlyphSlot) :
    OStream :=
  writeMetrics dm (writeArray dm outFile codepoint slot) codepoint slot

/-- The diagnostic line of a failed `FT_Load_Char` (line 117). -/
def loadFailedLine (codepoint : Nat) : List Char :=
  "ERROR: Failed to load Glyph U+".toList ++ Nat.toDigits 16 codepoint

/-- The loop `for (unsigned int codepoint : codepoints)` of lines 115-144: the face,
the output stream and the lines of `std::cerr` after the loop. -/
def processCodepoints {Face : Type} (dm : DataModel) (w : World Face) :
    List Nat → Face → OStream → List (List Char) → Face × OStream × List (List Char)
  | [], face, outFile, cerr => (face, outFile, cerr)
  | codepoint :: rest, face, outFile, cerr =>
    let r := w.FT_Load_Char face codepoint
    if r.1 ≠ 0 then
      processCodepoints dm w rest r.2 outFile (cerr ++ [loadFailedLine codepoint])
    else
      processCodepoints dm w rest r.2 (writeGlyph dm outFile codepoint (w.glyph r.2)) cerr

/-! ## `main` (lines 40-156) -/

/-- The function `printUsage` (lines 32-38): the lines it writes to `std::cerr`. -/
def printUsage : List (List Char) :=
  ["Usage: ./generate_glyph_data -o <output_file> -c <codepoints> [-f <font_file>]".toList,
   "  -o <output_file>: Output header file name (e.g., glyph_data.h)".toList,
   "  -c <codepoints>: Comma-separated list of Unicode codepoints in hex (e.g., 1F714,1F70D,263F)".toList,
   "  -f <font_file>: Font file path (default: Symbola.ttf)".toList,
   "Example: ./generate_glyph_data -o glyph_data.h -c 1F714,1F70D,263F -f Symbola.ttf".toList]

/-- The three option variables of `main`. -/
structure Options where
  outputFile : List Char
  codepointStr : List Char
  fontPath : List Char
deriving DecidableEq, Repr

/-- The initial values of the option variables (lines 42-44). -/
def defaultOptions : Options := ⟨[], [], "Symbola.ttf".toList⟩

/-- The argument loop (lines 47-59) over the arguments from index `i` on; `none` is
the `else` branch, which prints the usage and returns 1. The test `i + 1 < argc` holds
exactly when an argument follows. -/
def parseArgs : List (List Char) → Options → Option Options
  | [], opts => some opts
  | arg :: rest, opts =>
    match rest with
    | value :: rest' =>
      if arg = "-o".toList then parseArgs rest' { opts with outputFile := value }
      else if arg = "-c".toList then parseArgs rest' { opts with codepointStr := value }
      else if arg = "-f".toList then parseArgs rest' { opts with fontPath := value }
      else none
    | [] => none

/-- The header guard of lines 103-105: `::toupper` on every character ("C" locale),
then every `'.'` replaced by `'_'`. -/
def headerGuard (outputFile : List Char) : List Char :=
  (outputFile.map Char.toUpper).map (fun c => if c = '.' then '_' else c)

/-- External calls that acquire or release a resource, in the order `main` makes them. -/
inductive Call where
  | FT_Init_FreeType
  | FT_New_Face (path : List Char)
  | ofstream (path : List Char)
  | FT_Done_Face
  | FT_Done_FreeType
deriving DecidableEq, Repr

/-- What a run of `main` leaves behind: its return value, the lines on `std::cerr` and
`std::cout`, the resource calls made, and the output file (path and content) if it was
opened. -/
structure Run where
  status : Int
  cerr : List (List Char)
  cout : List (List Char)
  calls : List Call
  file : Option (List Char × List Char)
deriving DecidableEq, Repr

/-- The text written before the glyphs (lines 106-112). -/
def writeHeader (outFile : OStream) (opts : Options) : OStream :=
  let guard := headerGuard opts.outputFile
  let out1 := ((outFile.str "#ifndef ".toList).str guard).str "\n".toList
  let out2 := ((out1.str "#define ".toList).str guard).str "\n\n".toList
  let out3 := out2.str "// Glyph texture data generated for specified Unicode symbols\n".toList
  let out4 := ((out3.str "// Font: ".toList).str opts.fontPath).str ", Size: 48 pixels\n".toList
  ((out4.str "// Codepoints: ".toList).str opts.codepointStr).str "\n\n".toList

/-- The part of `main` after argument validation (lines 75-155). Writes to the opened
file are taken to succeed. -/
def generate {Face : Type} (dm : DataModel) (w : World Face) (opts : Options)
    (codepoints : List Nat) (cerr : List (List Char)) : Run :=
  if w.FT_Init_FreeType ≠ 0 then
    ⟨1, cerr ++ ["ERROR: Could not init FreeType Library".toList], [],
      [.FT_Init_FreeType], none⟩
  else
    match w.FT_New_Face opts.fontPath with
    | none =>
      ⟨1, cerr ++ ["ERROR: Failed to load font at ".toList ++ opts.fontPath], [],
        [.FT_Init_FreeType, .FT_New_Face opts.fontPath, .FT_Done_FreeType], none⟩
    | some face0 =>
      let face := w.FT_Set_Pixel_Sizes face0 0 48
      if !w.canOpen opts.outputFile then
        ⟨1, cerr ++ ["ERROR: Could not open ".toList ++ opts.outputFile ++ " for writing".toList],
          [], [.FT_Init_FreeType, .FT_New_Face opts.fontPath, .ofstream opts.outputFile,
            .FT_Done_Face, .FT_Done_FreeType], none⟩
      else
        let out1 := writeHeader OStream.init opts
        let r := processCodepoints dm w codepoints face out1 cerr
        let out2 := ((r.2.1.str "#endif // ".toList).str (headerGuard opts.outputFile)).str
          "\n".toList
        ⟨0, r.2.2, ["Generated ".toList ++ opts.outputFile ++ " successfully".toList],
          [.FT_Init_FreeType, .FT_New_Face opts.fontPath, .ofstream opts.outputFile,
            .FT_Done_Face, .FT_Done_FreeType],
          some (opts.outputFile, out2.buf)⟩

/-- The function `main` on the argument vector `argv` (`argv[0]` included). -/
def main {Face : Type} (dm : DataModel) (w : World Face) (argv : List (List Char)) : Run :=
  match parseArgs (argv.drop 1) defaultOptions with
  | none => ⟨1, printUsage, [], [], none⟩
  | some opts =>
    if opts.outputFile = [] ∨ opts.codepointStr = [] then ⟨1, printUsage, [], [], none⟩
    else
      let parsed := parseCodepoints dm opts.codepointStr
      let codepoints := parsed.1
      if codepoints = [] then
        ⟨1, parsed.2 ++ ["ERROR: No valid codepoints provided".toList] ++ printUsage, [], [],
          none⟩
      else generate dm w opts codepoints parsed.2

/-! ## The live renderer (`AlchemicalSymbols.cpp`) -/

/-- The comma-separated tokens of a string, as the parser sees them: the pieces
between commas, where the piece after a final comma exists only if it is non-empty
(so the empty string has no token and `"a,"` has the single token `"a"`). -/
def tokens : List Char → List (List Char)
  | [] => []
  | c :: cs =>
    if c = ',' then [] :: tokens cs
    else
      match tokens cs with
      | [] => [[c]]
      | t :: ts => (c :: t) :: ts

/-- The element a token contributes to the result, if it is not reported. -/
def tokenValue (dm : DataModel) (tok : List Char) : Option Nat :=
  match stoul dm (trimItem tok) with
  | .ok v => some (v % 2 ^ dm.intBits)
  | .error _ => none

/-- The diagnostic line a token causes, if it is reported as an error. -/
def tokenError (dm : DataModel) (tok : List Char) : Option (List Char) :=
  match stoul dm (trimItem tok) with
  | .ok _ => none
  | .error _ => some (invalidCodepointLine (trimItem tok))

/-! ## Description of the emitted text -/

/-- The text an operation appended to a stream. -/
def appended (before after : OStream) : List Char := after.buf.drop before.buf.length

/-- Decimal text of a natural number. -/
def decimalNat (n : Nat) : List Char := (Nat.repr n).toList

/-- Decimal text of an integer, with a leading `-` when negative. -/
def decimalInt (i : Int) : List Char := (Int.repr i).toList

/-- Name of a declaration: `glyph_U`, the codepoint in lowercase hexadecimal without
padding or prefix, and the field suffix. -/
def glyphName (codepoint : Nat) (suffix : List Char) : List Char :=
  "glyph_U".toList ++ Nat.toDigits 16 codepoint ++ suffix

/-- The declaration of a scalar named `name` with the value text `value`. -/
def scalarDecl (name value : List Char) : List Char :=
  "static const int ".toList ++ name ++ " = ".toList ++ value ++ ";\n".toList

/-- The text of the five metric declarations. -/
def metricsText (codepoint : Nat) (slot : GlyphSlot) : List Char :=
  scalarDecl (glyphName codepoint "_width".toList) (decimalNat slot.width) ++
  scalarDecl (glyphName codepoint "_height".toList) (decimalNat slot.rows) ++
  scalarDecl (glyphName codepoint "_bearingX".toList) (decimalInt slot.bitmap_left) ++
  scalarDecl (glyphName codepoint "_bearingY".toList) (decimalInt slot.bitmap_top) ++
  scalarDecl (glyphName codepoint "_advance".toList) (decimalInt (slot.advance_x >>> (6 : Nat))) ++
  "\n".toList

/-- The text one iteration of the byte loop (`writeByte`) appends to a stream whose
width is 0, whatever its base and fill character. -/
def bytePiece (dm : DataModel) (buffer : List Nat) (size i : Nat) : List Char :=
  let digits := Nat.toDigits 16 ((Int.ofNat (buffer.getD i 0)) % (2 : Int) ^ dm.intBits).toNat
  "0x".toList ++ (List.replicate (2 - digits.length) '0' ++ digits) ++
    (if i < (size + 2 ^ dm.intBits - 1) % 2 ^ dm.intBits then ", ".toList else []) ++
    (if (i + 1) % 2 ^ dm.intBits % 16 = 0 ∧ i < (size + 2 ^ dm.intBits - 1) % 2 ^ dm.intBits
      then "\n    ".toList else [])

/-- The text the byte loop (`writeBytes`) appends to a stream whose width is 0. -/
def bodyText (dm : DataModel) (buffer : List Nat) (size : Nat) : List Char :=
  ((List.range size).map (bytePiece dm buffer size)).flatten

/-- The text of one array declaration, as `writeArray` appends it. -/
def arrayText (dm : DataModel) (codepoint : Nat) (slot : GlyphSlot) : List Char :=
  "static const unsigned char ".toList ++ glyphName codepoint [] ++ "[] = \x7b\n    ".toList ++
    bodyText dm slot.buffer ((slot.width * slot.rows) % 2 ^ dm.intBits) ++ "\n\x7d;\n".toList

/-- The declaration block of one glyph: the array declaration followed by the five
metric declarations. -/
def glyphBlock (dm : DataModel) (codepoint : Nat) (slot : GlyphSlot) : List Char :=
  arrayText dm codepoint slot ++ metricsText codepoint slot

/-- The lowercase hexadecimal digit of a value below 16. -/
def lowerHexDigit (d : Nat) : Char := "0123456789abcdef".toList.getD d '0'

/-- A byte literal as the format describes it: `0x` and exactly two lowercase
hexadecimal digits. -/
def byteLiteral (b : Nat) : List Char :=
  ['0', 'x', lowerHexDigit (b / 16), lowerHexDigit (b % 16)]

/-- What the format describes for value number `p.1 + 1` of `n`, the byte `p.2`: the
literal, a comma separator unless it is the last value, and a line break when its
number is a multiple of 16 and it is not the last value. -/
def specPiece (n : Nat) (p : Nat × Nat) : List Char :=
  byteLiteral p.2 ++ (if p.1 + 1 < n then ", ".toList else []) ++
    (if (p.1 + 1) % 16 = 0 ∧ p.1 + 1 < n then "\n    ".toList else [])

/-- The array body the format describes for a bitmap. -/
def arrayBodySpec (bytes : List Nat) : List Char :=
  (bytes.enum.map (specPiece bytes.length)).flatten

/-- The outcome of the rasterizer for each codepoint of a list, in order: the glyph
slot when `FT_Load_Char` succeeds, `none` when it fails. Each call is made on the face
the previous call left. -/
def loadAll {Face : Type} (w : World Face) : Face → List Nat → List (Nat × Option GlyphSlot)
  | _, [] => []
  | face, c :: cs =>
    let r := w.FT_Load_Char face c
    (c, if r.1 = 0 then some (w.glyph r.2) else none) :: loadAll w r.2 cs

/-- The text an outcome contributes to the glyph section. -/
def blockOf (dm : DataModel) : Nat × Option GlyphSlot → List Char
  | (c, some slot) => glyphBlock dm c slot
  | (_, none) => []

/-- The diagnostic an outcome contributes. -/
def diagnosticOf : Nat × Option GlyphSlot → Option (List Char)
  | (c, none) => some (loadFailedLine c)
  | (_, some _) => none

/-! ## Description of the command line -/

/-- Whether an argument is one of the three recognised flags. -/
def isFlag (a : List Char) : Bool := a = "-o".toList || a = "-c".toList || a = "-f".toList

/-- The argument list made of the given flag-value pairs, in order. -/
def flagArgs (pairs : List (List Char × List Char)) : List (List Char) :=
  pairs.flatMap (fun p => [p.1, p.2])

/-- The value given with the last occurrence of `flag`, or `default` if the flag does
not occur. -/
def lastValue (flag : List Char) (pairs : List (List Char × List Char))
    (default : List Char) : List Char :=
  pairs.foldl (fun cur p => if p.1 = flag then p.2 else cur) default

/-- The option variables after a sequence of flag-value pairs. -/
def applyPairs (pairs : List (List Char × List Char)) (opts : Options) : Options :=
  ⟨lastValue "-o".toList pairs opts.outputFile, lastValue "-c".toList pairs opts.codepointStr,
    lastValue "-f".toList pairs opts.fontPath⟩

/-- The arguments after `argv[0]` are acceptable: every argument is a recognised flag
followed by its value, the output name and the codepoint string so given are non-empty,
and at least one codepoint parses. -/
def GoodArgs (dm : DataModel) (args : List (List Char)) : Prop :=
  ∃ pairs : List (List Char × List Char),
    args = flagArgs pairs ∧ (∀ p ∈ pairs, isFlag p.1 = true) ∧
      lastValue "-o".toList pairs [] ≠ [] ∧ lastValue "-c".toList pairs [] ≠ [] ∧
      (parseCodepoints dm (lastValue "-c".toList pairs [])).1 ≠ []

/-! ## Description of the document frame -/

/-- The two lines that open the document for a guard token. -/
def guardOpening (token : List Char) : List Char :=
  "#ifndef ".toList ++ token ++ "\n".toList ++ "#define ".toList ++ token ++ "\n\n".toList

/-- The line that closes the document for a guard token. -/
def guardClosing (token : List Char) : List Char :=
  "#endif // ".toList ++ token ++ "\n".toList

/-- The provenance comment block (lines 110-112). -/
def commentBlock (opts : Options) : List Char :=
  "// Glyph texture data generated for specified Unicode symbols\n".toList ++
    "// Font: ".toList ++ opts.fontPath ++ ", Size: 48 pixels\n".toList ++
    "// Codepoints: ".toList ++ opts.codepointStr ++ "\n\n".toList

/-- The character of the guard token for a character of the output name: `'_'` for
`'.'`, the uppercase letter for a lowercase ASCII letter, the character itself
otherwise. -/
def guardChar (c : Char) : Char :=
  if c = '.' then '_'
  else if 97 ≤ c.toNat ∧ c.toNat ≤ 122 then Char.ofNat (c.toNat - 32)
  else c

/-- The guard token as the specification words it: every letter uppercased and every
non-alphanumeric character replaced by an underscore. -/
def guardAsStated (outputFile : List Char) : List Char :=
  outputFile.map (fun c => if c.isAlphanum then c.toUpper else '_')

/-! ## Sample inputs -/

/-- The input of the worked example of the parser. -/
def exampleInput : List Char := "1F714, 263f , bad,1F70D".toList

/-- A rasterizer that fails on codepoint 0 and otherwise yields a 2 by 1 glyph whose
first byte is the low byte of the codepoint; the face records the last codepoint. -/
def sampleWorld : World Nat :=
  ⟨0, fun _ => some 0, fun face _ _ => face, fun _ c => (if c = 0 then 6 else 0, c),
    fun c => ⟨[c % 256, 1], 2, 1, 3, -4, -65⟩, fun _ => true⟩

/-- The command line of the sample run. -/
def sampleArgv : List (List Char) :=
  ["generate_glyph_data".toList, "-o".toList, "glyph-data.h".toList, "-c".toList,
    "1F714,0,1F70D".toList]

/-- The document the sample run writes. -/
def sampleDocument : List Char :=
  ("#ifndef GLYPH-DATA_H\n#define GLYPH-DATA_H\n\n" ++
    "// Glyph texture data generated for specified Unicode symbols\n" ++
    "// Font: Symbola.ttf, Size: 48 pixels\n// Codepoints: 1F714,0,1F70D\n\n" ++
    "static const unsigned char glyph_U1f714[] = \x7b\n    0x14, 0x01\n\x7d;\n" ++
    "static const int glyph_U1f714_width = 2;\nstatic const int glyph_U1f714_height = 1;\n" ++
    "static const int glyph_U1f714_bearingX = 3;\nstatic const int glyph_U1f714_bearingY = -4;\n" ++
    "static const int glyph_U1f714_advance = -2;\n\n" ++
    "static const unsigned char glyph_U1f70d[] = \x7b\n    0x0d, 0x01\n\x7d;\n" ++
    "static const int glyph_U1f70d_width = 2;\nstatic const int glyph_U1f70d_height = 1;\n" ++
    "static const int glyph_U1f70d_bearingX = 3;\nstatic const int glyph_U1f70d_bearingY = -4;\n" ++
    "static const int glyph_U1f70d_advance = -2;\n\n" ++
    "#endif // GLYPH-DATA_H\n").toList

/-! # Part 3: lemmas -/

theorem getline_rest_length {ss item rest : List Char}
    (h : getline ss = some (item, rest)) : rest.length < ss.length := by
  unfold getline at h
  split at h
  · cases h
  · rename_i hne
    simp only [Option.some.injEq, Prod.mk.injEq] at h
    obtain ⟨-, rfl⟩ := h
    cases ss with
    | nil => exact absurd rfl hne
    | cons c cs =>
      have h1 := (List.dropWhile_sublist (l := c :: cs) (fun c => c != ',')).length_le
      have h2 : ((c :: cs).dropWhile (fun c => c != ',')).length ≤ cs.length + 1 := by
        simpa using h1
      simp only [List.length_drop, List.length_cons]
      omega

theorem getline_eq_none {ss : List Char} (h : getline ss = none) : ss = [] := by
  unfold getline at h
  split at h
  · assumption
  · cases h

theorem getline_cons (c : Char) (cs : List Char) :
    getline (c :: cs) =
      if c = ',' then some ([], cs)
      else some (c :: cs.takeWhile (fun c => c != ','),
        (cs.dropWhile (fun c => c != ',')).drop 1) := by
  by_cases hc : c = ','
  · subst hc
    simp [getline]
  · simp [getline, hc, List.takeWhile_cons, List.dropWhile_cons]

theorem tokens_of_getline {ss item rest : List Char}
    (h : getline ss = some (item, rest)) : tokens ss = item :: tokens rest := by
  induction ss generalizing item rest with
  | nil => simp [getline] at h
  | cons c cs ih =>
    rw [getline_cons] at h
    by_cases hc : c = ','
    · simp only [hc, if_true, Option.some.injEq, Prod.mk.injEq] at h
      obtain ⟨rfl, rfl⟩ := h
      simp [tokens, hc]
    · simp only [hc, if_false, Option.some.injEq, Prod.mk.injEq] at h
      obtain ⟨rfl, rfl⟩ := h
      cases cs with
      | nil => simp [tokens, hc]
      | cons d ds =>
        have hg : getline (d :: ds) =
            some ((d :: ds).takeWhile (fun c => c != ','),
              ((d :: ds).dropWhile (fun c => c != ',')).drop 1) := by
          simp [getline]
        have := ih hg
        simp only [tokens, hc, if_false] at this ⊢
        rw [this]

theorem parseLoop_eq (dm : DataModel) (ss : List Char) (codepoints : List Nat)
    (cerr : List (List Char)) :
    parseLoop dm ss codepoints cerr =
      (codepoints ++ (tokens ss).filterMap (tokenValue dm),
        cerr ++ (tokens ss).filterMap (tokenError dm)) := by
  generalize hn : ss.length = n
  induction n using Nat.strong_induction_on generalizing ss codepoints cerr with
  | _ n ih =>
    rw [parseLoop]
    split
    · rename_i hg
      have := getline_eq_none hg
      subst this
      simp [tokens]
    · rename_i item rest hg
      have hlt := getline_rest_length hg
      rw [tokens_of_getline hg]
      simp only [List.filterMap_cons, tokenValue, tokenError]
      split
      · rename_i v hv
        rw [ih rest.length (hn ▸ hlt) rest _ _ rfl]
        simp [hv]
      · rename_i e he
        rw [ih rest.length (hn ▸ hlt) rest _ _ rfl]
        simp [he]

theorem parseCodepoints_eq (dm : DataModel) (s : List Char) :
    parseCodepoints dm s =
      ((tokens s).filterMap (tokenValue dm), (tokens s).filterMap (tokenError dm)) := by
  simp [parseCodepoints, parseLoop_eq]

theorem decimalNat_eq (n : Nat) : decimalNat n = Nat.toDigits 10 n := by
  simp [decimalNat, Nat.repr, List.asString]

theorem decimalInt_eq (i : Int) :
    decimalInt i = if i < 0 then '-' :: Nat.toDigits 10 i.natAbs else Nat.toDigits 10 i.toNat := by
  cases i with
  | ofNat m =>
    have h : ¬ ((Int.ofNat m) < 0) := by simp
    simp only [h, if_false]
    simp [decimalInt, Int.repr, Nat.repr, List.asString]
  | negSucc m =>
    have h : (Int.negSucc m) < 0 := Int.negSucc_lt_zero m
    simp only [h, if_true]
    simp [decimalInt, Int.repr, Nat.repr, List.asString, Int.natAbs]

theorem writeMetrics_buf (dm : DataModel) (out : OStream) (c : Nat) (slot : GlyphSlot)
    (hw : out.width = 0) :
    (writeMetrics dm out c slot).buf = out.buf ++ metricsText c slot := by
  have e0 : "static const int glyph_U".toList = "static const int ".toList ++ "glyph_U".toList :=
    rfl
  have e1 : "_width = ".toList = "_width".toList ++ " = ".toList := rfl
  have e2 : "_height = ".toList = "_height".toList ++ " = ".toList := rfl
  have e3 : "_bearingX = ".toList = "_bearingX".toList ++ " = ".toList := rfl
  have e4 : "_bearingY = ".toList = "_bearingY".toList ++ " = ".toList := rfl
  have e5 : "_advance = ".toList = "_advance".toList ++ " = ".toList := rfl
  have e6 : ";\n\n".toList = ";\n".toList ++ "\n".toList := rfl
  simp only [writeMetrics, metricsText, scalarDecl, glyphName, decimalNat_eq, decimalInt_eq,
    OStream.str, OStream.insert, OStream.hex, OStream.dec, OStream.unsigned, OStream.signed, hw,
    Nat.zero_sub, List.replicate_zero, List.nil_append, List.append_assoc, if_true, if_false,
    Bool.false_eq_true, e0, e1, e2, e3, e4, e5, e6]

theorem writeMetrics_state (dm : DataModel) (out : OStream) (c : Nat) (slot : GlyphSlot) :
    (writeMetrics dm out c slot).width = 0 := by
  simp only [writeMetrics, OStream.str, OStream.insert]

theorem writeByte_width (dm : DataModel) (buffer : List Nat) (size : Nat) (out : OStream)
    (i : Nat) : (writeByte dm buffer size out i).width = 0 := by
  simp only [writeByte, OStream.str, OStream.insert, OStream.hex, OStream.setw,
    OStream.setfill, OStream.signed]
  split <;> split <;> rfl

theorem writeByte_buf (dm : DataModel) (buffer : List Nat) (size : Nat) (out : OStream)
    (i : Nat) (hw : out.width = 0) :
    (writeByte dm buffer size out i).buf = out.buf ++ bytePiece dm buffer size i := by
  simp only [writeByte, bytePiece, OStream.str, OStream.insert, OStream.hex, OStream.setw,
    OStream.setfill, OStream.signed, hw, Nat.zero_sub, List.replicate_zero, List.nil_append,
    if_true]
  split <;> split <;> simp_all

theorem foldl_writeByte (dm : DataModel) (buffer : List Nat) (size : Nat) (is : List Nat) :
    ∀ out : OStream, out.width = 0 →
      ((is.foldl (writeByte dm buffer size) out).buf =
          out.buf ++ (is.map (bytePiece dm buffer size)).flatten) ∧
        (is.foldl (writeByte dm buffer size) out).width = 0 := by
  induction is with
  | nil => intro out hw; simp [hw]
  | cons i is ih =>
    intro out hw
    have h := ih (writeByte dm buffer size out i) (writeByte_width dm buffer size out i)
    simp only [List.foldl_cons, List.map_cons, List.flatten_cons]
    rw [h.1, writeByte_buf dm buffer size out i hw, List.append_assoc]
    exact ⟨rfl, h.2⟩

theorem writeBytes_buf (dm : DataModel) (buffer : List Nat) (size : Nat) (out : OStream)
    (hw : out.width = 0) :
    (writeBytes dm buffer size out).buf = out.buf ++ bodyText dm buffer size :=
  (foldl_writeByte dm buffer size (List.range size) out hw).1

theorem writeBytes_width (dm : DataModel) (buffer : List Nat) (size : Nat) (out : OStream)
    (hw : out.width = 0) : (writeBytes dm buffer size out).width = 0 :=
  (foldl_writeByte dm buffer size (List.range size) out hw).2

set_option maxRecDepth 100000 in
theorem pad_two_hex : ∀ b, b < 256 →
    List.replicate (2 - (Nat.toDigits 16 b).length) '0' ++ Nat.toDigits 16 b =
      [lowerHexDigit (b / 16), lowerHexDigit (b % 16)] := by
  decide

theorem two_pow_intBits_ge (dm : DataModel) : 65536 ≤ 2 ^ dm.intBits :=
  calc 65536 = 2 ^ 16 := by norm_num
    _ ≤ 2 ^ dm.intBits := Nat.pow_le_pow_right (by norm_num) dm.int_ge

theorem bytePiece_eq (dm : DataModel) (buffer : List Nat) (size i : Nat)
    (hsize : size < 2 ^ dm.intBits) (hi : i < size) (hb : buffer.getD i 0 < 256) :
    bytePiece dm buffer size i = specPiece size (i, buffer.getD i 0) := by
  have hge := two_pow_intBits_ge dm
  have h1 : (size + 2 ^ dm.intBits - 1) % 2 ^ dm.intBits = size - 1 := by
    have : size + 2 ^ dm.intBits - 1 = (size - 1) + 2 ^ dm.intBits := by omega
    rw [this, Nat.add_mod_right, Nat.mod_eq_of_lt (by omega)]
  have h2 : (i + 1) % 2 ^ dm.intBits = i + 1 := Nat.mod_eq_of_lt (by omega)
  have h3 : ((Int.ofNat (buffer.getD i 0)) % (2 : Int) ^ dm.intBits).toNat = buffer.getD i 0 := by
    have : (Int.ofNat (buffer.getD i 0)) % (2 : Int) ^ dm.intBits
        = ((buffer.getD i 0 % 2 ^ dm.intBits : Nat) : Int) := by
      push_cast
      rfl
    rw [this, Int.toNat_ofNat, Nat.mod_eq_of_lt (by omega)]
  have h4 : (i < size - 1) ↔ (i + 1 < size) := by omega
  simp only [bytePiece, specPiece, byteLiteral, h1, h2, h3, pad_two_hex _ hb, h4]
  rfl

theorem bodyText_eq_spec (dm : DataModel) (buffer : List Nat)
    (hsize : buffer.length < 2 ^ dm.intBits) (hb : ∀ b ∈ buffer, b < 256) :
    bodyText dm buffer buffer.length = arrayBodySpec buffer := by
  unfold bodyText arrayBodySpec
  congr 1
  apply List.ext_getElem
  · simp
  · intro i h1 h2
    have hi : i < buffer.length := by simpa using h1
    have hget : buffer.getD i 0 = buffer[i] := by
      simp [List.getD_eq_getElem?_getD, List.getElem?_eq_getElem hi]
    have hb' : buffer.getD i 0 < 256 := by
      rw [hget]
      exact hb _ (List.getElem_mem hi)
    simp only [List.getElem_map, List.getElem_range, List.getElem_enum]
    rw [bytePiece_eq dm buffer buffer.length i hsize hi hb', hget]

theorem writeArray_buf (dm : DataModel) (out : OStream) (c : Nat) (slot : GlyphSlot)
    (hw : out.width = 0) :
    (writeArray dm out c slot).buf = out.buf ++ arrayText dm c slot := by
  have e0 : "static const unsigned char glyph_U".toList =
      "static const unsigned char ".toList ++ "glyph_U".toList := rfl
  simp only [writeArray, OStream.str, OStream.insert]
  rw [writeBytes_buf _ _ _ _ (by simp only [OStream.str, OStream.insert]),
    writeBytes_width _ _ _ _ (by simp only [OStream.str, OStream.insert])]
  simp only [arrayText, glyphName, OStream.str, OStream.insert, OStream.hex, OStream.unsigned,
    hw, Nat.zero_sub, List.replicate_zero, List.nil_append, List.append_assoc, if_true, e0,
    List.append_nil]

theorem writeArray_width (dm : DataModel) (out : OStream) (c : Nat) (slot : GlyphSlot) :
    (writeArray dm out c slot).width = 0 := by
  simp only [writeArray, OStream.str, OStream.insert]

theorem writeGlyph_buf (dm : DataModel) (out : OStream) (c : Nat) (slot : GlyphSlot)
    (hw : out.width = 0) :
    (writeGlyph dm out c slot).buf = out.buf ++ (arrayText dm c slot ++ metricsText c slot) := by
  rw [writeGlyph, writeMetrics_buf _ _ _ _ (writeArray_width dm out c slot),
    writeArray_buf dm out c slot hw, List.append_assoc]

theorem writeGlyph_width (dm : DataModel) (out : OStream) (c : Nat) (slot : GlyphSlot) :
    (writeGlyph dm out c slot).width = 0 :=
  writeMetrics_state dm _ c slot

theorem appended_eq {before after : OStream} {text : List Char}
    (h : after.buf = before.buf ++ text) : appended before after = text := by
  simp [appended, h]

theorem processCodepoints_eq {Face : Type} (dm : DataModel) (w : World Face)
    (cps : List Nat) : ∀ (face : Face) (out : OStream) (cerr : List (List Char)),
    out.width = 0 →
    (processCodepoints dm w cps face out cerr).2.1.buf =
        out.buf ++ ((loadAll w face cps).map (blockOf dm)).flatten ∧
      (processCodepoints dm w cps face out cerr).2.1.width = 0 ∧
      (processCodepoints dm w cps face out cerr).2.2 =
        cerr ++ (loadAll w face cps).filterMap diagnosticOf := by
  induction cps with
  | nil => intro face out cerr hw; simp [processCodepoints, loadAll, hw]
  | cons c cs ih =>
    intro face out cerr hw
    by_cases h : (w.FT_Load_Char face c).1 = 0
    · have := ih (w.FT_Load_Char face c).2
        (writeGlyph dm out c (w.glyph (w.FT_Load_Char face c).2)) cerr
        (writeGlyph_width dm out c _)
      simp only [processCodepoints, loadAll, h, ne_eq, not_true_eq_false, if_false, if_true,
        List.map_cons, List.flatten_cons, List.filterMap_cons, blockOf, diagnosticOf,
        glyphBlock]
      rw [this.1, this.2.1, this.2.2, writeGlyph_buf dm out c _ hw]
      simp [blockOf, glyphBlock]
    · have := ih (w.FT_Load_Char face c).2 out (cerr ++ [loadFailedLine c]) hw
      simp only [processCodepoints, loadAll, h, ne_eq, not_false_eq_true, if_false, if_true,
        List.map_cons, List.flatten_cons, List.filterMap_cons, blockOf, diagnosticOf]
      rw [this.1, this.2.1, this.2.2]
      simp

theorem tokens_ne_nil {s : List Char} (h : s ≠ []) : tokens s ≠ [] := by
  cases s with
  | nil => exact absurd rfl h
  | cons c cs =>
    simp only [tokens]
    split
    · simp
    · split <;> simp

theorem tokens_cons_of_ne (c : Char) (cs : List Char) (hc : c ≠ ',') {t : List Char}
    {ts : List (List Char)} (h : tokens cs = t :: ts) : tokens (c :: cs) = (c :: t) :: ts := by
  simp [tokens, hc, h]

theorem tokens_cons_ne (c : Char) (cs : List Char) (hc : c ≠ ',') :
    tokens (c :: cs) =
      match tokens cs with
      | [] => [[c]]
      | t :: ts => (c :: t) :: ts := by
  cases h : tokens cs <;> simp [tokens, hc, h]

theorem tokens_cons_comma (cs : List Char) : tokens (',' :: cs) = [] :: tokens cs := by
  simp [tokens]

theorem tokens_append_comma_cons (a rest : List Char) :
    tokens (a ++ ',' :: rest) = tokens (a ++ [',']) ++ tokens rest := by
  induction a with
  | nil => simp [tokens]
  | cons c a ih =>
    by_cases hc : c = ','
    · simp [tokens, hc, ih]
    · obtain ⟨t, ts, hts⟩ : ∃ t ts, tokens (a ++ [',']) = t :: ts := by
        cases h : tokens (a ++ [',']) with
        | nil => exact absurd h (tokens_ne_nil (by simp))
        | cons t ts => exact ⟨t, ts, rfl⟩
      have h1 : tokens (a ++ ',' :: rest) = t :: (ts ++ tokens rest) := by
        rw [ih, hts]; rfl
      rw [List.cons_append, List.cons_append, tokens_cons_of_ne c _ hc h1,
        tokens_cons_of_ne c _ hc hts]
      rfl

theorem tokens_append_comma (s : List Char) (hne : s ≠ []) (hlast : s.getLast? ≠ some ',') :
    tokens (s ++ [',']) = tokens s := by
  induction s with
  | nil => exact absurd rfl hne
  | cons c cs ih =>
    cases cs with
    | nil =>
      have hc : c ≠ ',' := by simpa using hlast
      simp [tokens, hc]
    | cons d ds =>
      have hlast' : (d :: ds).getLast? ≠ some ',' := by
        simpa [List.getLast?_cons_cons] using hlast
      have h := ih (by simp) hlast'
      by_cases hc : c = ','
      · subst hc
        rw [List.cons_append, tokens_cons_comma, tokens_cons_comma, h]
      · rw [List.cons_append, tokens_cons_ne c _ hc, tokens_cons_ne c _ hc, h]

theorem applyPairs_nil (opts : Options) : applyPairs [] opts = opts := rfl

theorem applyPairs_cons (f v : List Char) (ps : List (List Char × List Char))
    (opts : Options) :
    applyPairs ((f, v) :: ps) opts =
      applyPairs ps
        ⟨if f = "-o".toList then v else opts.outputFile,
          if f = "-c".toList then v else opts.codepointStr,
          if f = "-f".toList then v else opts.fontPath⟩ := rfl

theorem parseArgs_cons_cons (arg value : List Char) (rest : List (List Char))
    (opts : Options) :
    parseArgs (arg :: value :: rest) opts =
      if arg = "-o".toList then parseArgs rest { opts with outputFile := value }
      else if arg = "-c".toList then parseArgs rest { opts with codepointStr := value }
      else if arg = "-f".toList then parseArgs rest { opts with fontPath := value }
      else none := by
  rw [parseArgs]

theorem parseArgs_singleton (arg : List Char) (opts : Options) :
    parseArgs [arg] opts = none := by
  rw [parseArgs]

theorem parseArgs_step (f v : List Char) (rest : List (List Char)) (opts : Options)
    (hf : isFlag f = true) :
    parseArgs (f :: v :: rest) opts = parseArgs rest (applyPairs [(f, v)] opts) := by
  rw [parseArgs_cons_cons, applyPairs_cons, applyPairs_nil]
  simp only [isFlag, Bool.or_eq_true, decide_eq_true_eq] at hf
  rcases hf with (hf | hf) | hf <;> subst hf <;> simp

theorem applyPairs_append (ps qs : List (List Char × List Char)) (opts : Options) :
    applyPairs (ps ++ qs) opts = applyPairs qs (applyPairs ps opts) := by
  simp [applyPairs, lastValue, List.foldl_append]

theorem parseArgs_flagArgs_append (pairs : List (List Char × List Char))
    (hp : ∀ p ∈ pairs, isFlag p.1 = true) (rest : List (List Char)) :
    ∀ opts : Options,
      parseArgs (flagArgs pairs ++ rest) opts = parseArgs rest (applyPairs pairs opts) := by
  induction pairs with
  | nil => intro opts; rfl
  | cons p ps ih =>
    intro opts
    obtain ⟨f, v⟩ := p
    have hf : isFlag f = true := hp (f, v) (List.mem_cons_self _ _)
    have hps : ∀ q ∈ ps, isFlag q.1 = true := fun q hq => hp q (List.mem_cons_of_mem _ hq)
    have e : flagArgs ((f, v) :: ps) ++ rest = f :: v :: (flagArgs ps ++ rest) := by
      simp [flagArgs]
    rw [e, parseArgs_step f v _ opts hf, ih hps]
    rw [← applyPairs_append]
    rfl

theorem parseArgs_some (args : List (List Char)) :
    ∀ opts opts' : Options, parseArgs args opts = some opts' →
      ∃ pairs : List (List Char × List Char),
        args = flagArgs pairs ∧ (∀ p ∈ pairs, isFlag p.1 = true) ∧
          opts' = applyPairs pairs opts := by
  generalize hn : args.length = n
  induction n using Nat.strong_induction_on generalizing args with
  | _ n ih =>
    intro opts opts' h
    match args, hn with
    | [], _ =>
      refine ⟨[], rfl, by simp, ?_⟩
      simp only [parseArgs, Option.some.injEq] at h
      rw [applyPairs_nil, h]
    | [a], _ => rw [parseArgs_singleton] at h; cases h
    | f :: v :: rest, hn =>
      have hlt : rest.length < n := by
        rw [← hn]
        simp only [List.length_cons]
        omega
      by_cases hf : isFlag f = true
      · rw [parseArgs_step f v rest opts hf] at h
        obtain ⟨ps, hargs, hps, hopts⟩ := ih rest.length hlt rest rfl _ _ h
        refine ⟨(f, v) :: ps, ?_, ?_, ?_⟩
        · simp [flagArgs, hargs]
        · intro p hp
          rcases List.mem_cons.1 hp with rfl | hp
          · exact hf
          · exact hps p hp
        · rw [hopts, ← applyPairs_append]
          rfl
      · rw [parseArgs_cons_cons] at h
        simp only [isFlag, Bool.or_eq_true, decide_eq_true_eq, not_or] at hf
        rw [if_neg hf.1.1, if_neg hf.1.2, if_neg hf.2] at h
        cases h

theorem parseArgs_bad_flag (a : List Char) (rest : List (List Char)) (opts : Options)
    (ha : isFlag a = false) : parseArgs (a :: rest) opts = none := by
  cases rest with
  | nil => exact parseArgs_singleton a opts
  | cons v rest =>
    rw [parseArgs_cons_cons]
    have : ¬ (isFlag a = true) := by simp [ha]
    simp only [isFlag, Bool.or_eq_true, decide_eq_true_eq, not_or] at this
    rw [if_neg this.1.1, if_neg this.1.2, if_neg this.2]

theorem generate_calls_ne_nil {Face : Type} (dm : DataModel) (w : World Face) (opts : Options)
    (cps : List Nat) (cerr : List (List Char)) : (generate dm w opts cps cerr).calls ≠ [] := by
  unfold generate
  split
  · simp
  · split
    · simp
    · split <;> simp

theorem main_of_parseArgs {Face : Type} (dm : DataModel) (w : World Face)
    (argv : List (List Char)) (opts : Options)
    (hp : parseArgs (argv.drop 1) defaultOptions = some opts) :
    main dm w argv =
      if opts.outputFile = [] ∨ opts.codepointStr = [] then ⟨1, printUsage, [], [], none⟩
      else if (parseCodepoints dm opts.codepointStr).1 = [] then
        ⟨1, (parseCodepoints dm opts.codepointStr).2 ++
          ["ERROR: No valid codepoints provided".toList] ++ printUsage, [], [], none⟩
      else generate dm w opts (parseCodepoints dm opts.codepointStr).1
        (parseCodepoints dm opts.codepointStr).2 := by
  unfold main
  rw [hp]

theorem main_of_parseArgs_none {Face : Type} (dm : DataModel) (w : World Face)
    (argv : List (List Char)) (hp : parseArgs (argv.drop 1) defaultOptions = none) :
    main dm w argv = ⟨1, printUsage, [], [], none⟩ := by
  unfold main
  rw [hp]

theorem main_of_good {Face : Type} (dm : DataModel) (w : World Face) (argv : List (List Char))
    (h : GoodArgs dm (argv.drop 1)) : (main dm w argv).calls ≠ [] := by
  obtain ⟨pairs, hargs, hflags, ho, hc, hparse⟩ := h
  have hp : parseArgs (argv.drop 1) defaultOptions = some (applyPairs pairs defaultOptions) := by
    have := parseArgs_flagArgs_append pairs hflags [] defaultOptions
    rw [List.append_nil] at this
    rw [hargs, this]
    rfl
  have ho' : (applyPairs pairs defaultOptions).outputFile ≠ [] := ho
  have hc' : (applyPairs pairs defaultOptions).codepointStr ≠ [] := hc
  have hparse' : (parseCodepoints dm (applyPairs pairs defaultOptions).codepointStr).1 ≠ [] :=
    hparse
  rw [main_of_parseArgs dm w argv _ hp, if_neg (by simp [ho', hc']), if_neg hparse']
  exact generate_calls_ne_nil dm w _ _ _

theorem main_of_not_good {Face : Type} (dm : DataModel) (w : World Face)
    (argv : List (List Char)) (h : ¬ GoodArgs dm (argv.drop 1)) :
    (main dm w argv).status = 1 ∧ (main dm w argv).calls = [] ∧ (main dm w argv).file = none := by
  cases hp : parseArgs (argv.drop 1) defaultOptions with
  | none => rw [main_of_parseArgs_none dm w argv hp]; exact ⟨rfl, rfl, rfl⟩
  | some opts =>
    obtain ⟨pairs, hargs, hflags, hopts⟩ := parseArgs_some _ _ _ hp
    rw [main_of_parseArgs dm w argv opts hp]
    by_cases hempty : opts.outputFile = [] ∨ opts.codepointStr = []
    · rw [if_pos hempty]; exact ⟨rfl, rfl, rfl⟩
    · rw [if_neg hempty]
      by_cases hcps : (parseCodepoints dm opts.codepointStr).1 = []
      · rw [if_pos hcps]; exact ⟨rfl, rfl, rfl⟩
      · exfalso
        apply h
        simp only [not_or] at hempty
        subst hopts
        exact ⟨pairs, hargs, hflags, hempty.1, hempty.2, hcps⟩

theorem writeHeader_buf (opts : Options) :
    (writeHeader OStream.init opts).buf =
      guardOpening (headerGuard opts.outputFile) ++ commentBlock opts := by
  simp only [writeHeader, guardOpening, commentBlock, OStream.init, OStream.str, OStream.insert,
    Nat.zero_sub, List.replicate_zero, List.nil_append, List.append_assoc]

theorem writeHeader_width (opts : Options) : (writeHeader OStream.init opts).width = 0 := by
  simp only [writeHeader, OStream.str, OStream.insert]

theorem generate_file {Face : Type} (dm : DataModel) (w : World Face) (opts : Options)
    (cps : List Nat) (cerr : List (List Char)) (path content : List Char)
    (h : (generate dm w opts cps cerr).file = some (path, content)) :
    path = opts.outputFile ∧
      ∃ face : Face,
        content = guardOpening (headerGuard path) ++ commentBlock opts ++
          ((loadAll w face cps).map (blockOf dm)).flatten ++ guardClosing (headerGuard path) := by
  unfold generate at h
  split at h
  · cases h
  · split at h
    · cases h
    · rename_i face0 _
      split at h
      · cases h
      · simp only [Option.some.injEq, Prod.mk.injEq] at h
        obtain ⟨rfl, rfl⟩ := h
        refine ⟨rfl, w.FT_Set_Pixel_Sizes face0 0 48, ?_⟩
        have hp := processCodepoints_eq dm w cps (w.FT_Set_Pixel_Sizes face0 0 48)
          (writeHeader OStream.init opts) cerr (writeHeader_width opts)
        simp only [OStream.str, OStream.insert, hp.1, hp.2.1, writeHeader_buf, guardClosing,
          Nat.zero_sub, List.replicate_zero, List.nil_append, List.append_assoc]

theorem main_file {Face : Type} (dm : DataModel) (w : World Face) (argv : List (List Char))
    (path content : List Char) (h : (main dm w argv).file = some (path, content)) :
    ∃ (opts : Options) (face : Face) (cps : List Nat),
      path = opts.outputFile ∧
        content = guardOpening (headerGuard path) ++ commentBlock opts ++
          ((loadAll w face cps).map (blockOf dm)).flatten ++ guardClosing (headerGuard path) := by
  cases hp : parseArgs (argv.drop 1) defaultOptions with
  | none => rw [main_of_parseArgs_none dm w argv hp] at h; cases h
  | some opts =>
    rw [main_of_parseArgs dm w argv opts hp] at h
    split at h
    · cases h
    · split at h
      · cases h
      · obtain ⟨h1, face, h2⟩ := generate_file dm w opts _ _ path content h
        exact ⟨opts, face, _, h1, h2⟩

theorem toUpper_ne_dot (c : Char) (hc : c ≠ '.') : c.toUpper ≠ '.' := by
  by_cases h : c.toNat ≥ 97 ∧ c.toNat ≤ 122
  · have e : c.toUpper = Char.ofNat (c.toNat - 32) := by
      simp only [Char.toUpper, h, and_self, if_true]
    rw [e]
    generalize c.toNat = n at h
    obtain ⟨h1, h2⟩ := h
    interval_cases n <;> decide
  · have e : c.toUpper = c := by
      simp only [Char.toUpper, h, if_false]
    rw [e]
    exact hc

theorem headerGuard_eq (outputFile : List Char) :
    headerGuard outputFile = outputFile.map (fun c => if c = '.' then '_' else c.toUpper) := by
  simp only [headerGuard, List.map_map]
  congr 1
  funext c
  simp only [Function.comp]
  by_cases hc : c = '.'
  · subst hc; decide
  · simp only [hc, if_false, toUpper_ne_dot c hc]

theorem tokenValue_isSome (dm : DataModel) (t : List Char) :
    (tokenValue dm t).isSome = (tokenError dm t).isNone := by
  unfold tokenValue tokenError
  cases stoul dm (trimItem t) <;> rfl

theorem filterMap_lengths (dm : DataModel) (ts : List (List Char)) :
    (ts.filterMap (tokenValue dm)).length + (ts.filterMap (tokenError dm)).length =
      ts.length := by
  induction ts with
  | nil => rfl
  | cons t ts ih =>
    have h := tokenValue_isSome dm t
    cases hv : tokenValue dm t with
    | none =>
      rw [hv] at h
      obtain ⟨e, he⟩ := Option.isSome_iff_exists.1 (by simpa using h.symm :
        (tokenError dm t).isSome = true)
      simp only [List.filterMap_cons, hv, he, List.length_cons]
      omega
    | some v =>
      rw [hv] at h
      have he : tokenError dm t = none := by simpa using h.symm
      simp only [List.filterMap_cons, hv, he, List.length_cons]
      omega

theorem generate_calls_head {Face : Type} (dm : DataModel) (w : World Face) (opts : Options)
    (cps : List Nat) (cerr : List (List Char)) :
    (generate dm w opts cps cerr).calls.head? = some Call.FT_Init_FreeType := by
  unfold generate
  split
  · rfl
  · split
    · rfl
    · split <;> rfl

theorem main_calls_head {Face : Type} (dm : DataModel) (w : World Face)
    (argv : List (List Char)) (h : (main dm w argv).calls ≠ []) :
    (main dm w argv).calls.head? = some Call.FT_Init_FreeType := by
  cases hp : parseArgs (argv.drop 1) defaultOptions with
  | none => rw [main_of_parseArgs_none dm w argv hp] at h; exact absurd rfl h
  | some opts =>
    rw [main_of_parseArgs dm w argv opts hp] at h ⊢
    split
    · rename_i h1; rw [if_pos h1] at h; exact absurd rfl h
    · rename_i h1
      rw [if_neg h1] at h
      split
      · rename_i h2; rw [if_pos h2] at h; exact absurd rfl h
      · exact generate_calls_head dm w _ _ _

set_option maxRecDepth 100000 in
theorem sampleRun_file :
    (main LP64 sampleWorld sampleArgv).file = some ("glyph-data.h".toList, sampleDocument) := by
  have hp : parseArgs (sampleArgv.drop 1) defaultOptions =
      some ⟨"glyph-data.h".toList, "1F714,0,1F70D".toList, "Symbola.ttf".toList⟩ := by
    decide
  rw [main_of_parseArgs LP64 sampleWorld sampleArgv _ hp, parseCodepoints_eq]
  decide

/-! # Part 4: the claims -/

/-! ## C1 -/

/-- C1 (as amended). For every string, `parseCodepoints` returns the values of exactly
the tokens that are not reported, in their order, and reports exactly the others, so the
length of the result is the number of tokens minus the number of reported tokens. For
`"1F714, 263f , bad,1F70D"` the result is `[0x1F714, 0x263F, 0xBAD, 0x1F70D]` and no
error is reported, `bad` being a hexadecimal number. -/
theorem parseCodepoints_tokens (dm : DataModel) (s : List Char) :
    (parseCodepoints dm s).1 = (tokens s).filterMap (tokenValue dm) ∧
      (parseCodepoints dm s).2 = (tokens s).filterMap (tokenError dm) ∧
      (∀ t, (tokenValue dm t).isSome = (tokenError dm t).isNone) ∧
      (parseCodepoints dm s).1.length = (tokens s).length - (parseCodepoints dm s).2.length ∧
      parseCodepoints LP64 exampleInput = ([0x1F714, 0x263F, 0xBAD, 0x1F70D], []) := by
  refine ⟨by rw [parseCodepoints_eq], by rw [parseCodepoints_eq], tokenValue_isSome dm, ?_, ?_⟩
  · rw [parseCodepoints_eq]
    have := filterMap_lengths dm (tokens s)
    simp only
    omega
  · rw [parseCodepoints_eq]
    decide

/-- C1, the example as the specification states it, fails: for
`"1F714, 263f , bad,1F70D"` the result is not `[0x1F714, 0x263F, 0x1F70D]` with one
reported error. -/
theorem parseCodepoints_example_not_as_stated :
    ¬ ((parseCodepoints LP64 exampleInput).1 = [0x1F714, 0x263F, 0x1F70D] ∧
        (parseCodepoints LP64 exampleInput).2.length = 1) := by
  rw [parseCodepoints_eq]
  decide

/-! ## C2 -/

/-- C2, the code at the failing inputs: a token with trailing non-hexadecimal
characters is converted by its leading digits, a signed token is converted to the
negated value in `unsigned long` and narrowed, and a value that fits `unsigned long`
but not `unsigned int` is narrowed, all without a diagnostic; a token without leading
digits, an empty token and a value beyond `unsigned long` are reported, and the tokens
after them are still parsed. -/
theorem parseCodepoints_accepts_malformed :
    parseCodepoints LP64 "12zz".toList = ([0x12], []) ∧
      parseCodepoints LP64 "-1".toList = ([0xFFFFFFFF], []) ∧
      parseCodepoints LP64 "100000000".toList = ([0], []) ∧
      parseCodepoints LP64 "zz,,10000000000000000,1F714".toList =
        ([0x1F714], [invalidCodepointLine "zz".toList, invalidCodepointLine [],
          invalidCodepointLine "10000000000000000".toList]) := by
  simp only [parseCodepoints_eq]
  decide

/-! ## C3 -/

/-- C4. For every successfully rasterized codepoint `c`, whatever the bitmap size, the
emitter writes six declarations in this order: the byte array, then width, height,
bearingX, bearingY and advance; each is named `glyph_U` followed by `c` in lowercase
hexadecimal without padding or prefix and by the field suffix, and the scalar values
are in decimal; the array body is empty when the width or the height is 0. For
`c = 0x1F714` the names are `glyph_U1f714`, `glyph_U1f714_width`, `glyph_U1f714_height`,
`glyph_U1f714_bearingX`, `glyph_U1f714_bearingY`, `glyph_U1f714_advance`. -/
theorem glyph_declarations (dm : DataModel) (out : OStream) (c : Nat) (slot : GlyphSlot)
    (hw : out.width = 0) :
    appended out (writeGlyph dm out c slot) =
        "static const unsigned char ".toList ++ glyphName c [] ++ "[] = \x7b\n    ".toList ++
          bodyText dm slot.buffer ((slot.width * slot.rows) % 2 ^ dm.intBits) ++
          "\n\x7d;\n".toList ++
        scalarDecl (glyphName c "_width".toList) (decimalNat slot.width) ++
        scalarDecl (glyphName c "_height".toList) (decimalNat slot.rows) ++
        scalarDecl (glyphName c "_bearingX".toList) (decimalInt slot.bitmap_left) ++
        scalarDecl (glyphName c "_bearingY".toList) (decimalInt slot.bitmap_top) ++
        scalarDecl (glyphName c "_advance".toList) (decimalInt (slot.advance_x >>> (6 : Nat))) ++
        "\n".toList ∧
      (slot.width = 0 ∨ slot.rows = 0 →
        bodyText dm slot.buffer ((slot.width * slot.rows) % 2 ^ dm.intBits) = []) ∧
      [glyphName 0x1F714 [], glyphName 0x1F714 "_width".toList,
        glyphName 0x1F714 "_height".toList, glyphName 0x1F714 "_bearingX".toList,
        glyphName 0x1F714 "_bearingY".toList, glyphName 0x1F714 "_advance".toList] =
      ["glyph_U1f714".toList, "glyph_U1f714_width".toList, "glyph_U1f714_height".toList,
        "glyph_U1f714_bearingX".toList, "glyph_U1f714_bearingY".toList,
        "glyph_U1f714_advance".toList] := by
  refine ⟨?_, ?_, by decide⟩
  · rw [appended_eq (writeGlyph_buf dm out c slot hw)]
    simp only [arrayText, metricsText, List.append_assoc]
  · intro h0
    have : slot.width * slot.rows = 0 := by
      rcases h0 with h0 | h0 <;> simp [h0]
    rw [this, Nat.zero_mod]
    rfl

set_option maxRecDepth 100000 in
/-- Witness of C4 on an empty glyph (a space) written to a fresh stream. -/
theorem glyph_declarations_witness :
    OStream.init.width = 0 ∧
      appended OStream.init (writeGlyph LP64 OStream.init 0x20 ⟨[], 0, 0, 0, 0, 768⟩) =
        ("static const unsigned char glyph_U20[] = \x7b\n    \n\x7d;\n" ++
          "static const int glyph_U20_width = 0;\n" ++
          "static const int glyph_U20_height = 0;\n" ++
          "static const int glyph_U20_bearingX = 0;\n" ++
          "static const int glyph_U20_bearingY = 0;\n" ++
          "static const int glyph_U20_advance = 12;\n\n").toList :=
  ⟨rfl, by
    rw [(glyph_declarations LP64 OStream.init 0x20 ⟨[], 0, 0, 0, 0, 768⟩ rfl).1]
    decide⟩

/-! ## C5 -/

/-- What lines 103-107 and 147 do: `headerGuard` uppercases the lowercase ASCII letters
of the output name and replaces `'.'` only, and a document written by `main` opens with
`#ifndef <token>` and `#define <token>` and ends with the line `#endif // <token>` for
that token. -/
theorem header_guard_frame {Face : Type} (dm : DataModel) (w : World Face)
    (argv : List (List Char)) (outputFile path content : List Char)
    (h : (main dm w argv).file = some (path, content)) :
    headerGuard outputFile = outputFile.map guardChar ∧
      guardOpening (headerGuard path) <+: content ∧
      guardClosing (headerGuard path) <:+ content := by
  refine ⟨?_, ?_, ?_⟩
  · rw [headerGuard_eq]
    apply List.map_congr_left
    intro c _
    by_cases hc : c = '.'
    · simp only [hc, if_true, guardChar]
    · simp only [hc, if_false, guardChar, Char.toUpper, ge_iff_le]
  · obtain ⟨opts, face, cps, -, hcontent⟩ := main_file dm w argv path content h
    rw [hcontent]
    simp only [List.append_assoc]
    exact List.prefix_append _ _
  · obtain ⟨opts, face, cps, -, hcontent⟩ := main_file dm w argv path content h
    rw [hcontent]
    exact List.suffix_append _ _

/-- The frame of the document of the sample run, whose output name is `glyph-data.h`. -/
theorem header_guard_frame_witness :
    (main LP64 sampleWorld sampleArgv).file = some ("glyph-data.h".toList, sampleDocument) ∧
      headerGuard "glyph-data.h".toList = "GLYPH-DATA_H".toList ∧
      guardOpening "GLYPH-DATA_H".toList <+: sampleDocument ∧
      guardClosing "GLYPH-DATA_H".toList <:+ sampleDocument :=
  ⟨sampleRun_file, by decide,
    (header_guard_frame LP64 sampleWorld sampleArgv [] "glyph-data.h".toList sampleDocument
      sampleRun_file).2⟩

set_option maxRecDepth 100000 in
/-- C5, the code at the failing input: for the output name `glyph-data.h` the guard
token the code builds is `GLYPH-DATA_H`, the hyphen being kept, where the claim gives
`GLYPH_DATA_H`; for `out/glyph_data.h` it is `OUT/GLYPH_DATA_H`. Neither is an
identifier, and the sample run writes `#ifndef GLYPH-DATA_H` and `#define GLYPH-DATA_H`
at the head of its document. -/
theorem header_guard_keeps_hyphen :
    headerGuard "glyph-data.h".toList = "GLYPH-DATA_H".toList ∧
      guardAsStated "glyph-data.h".toList = "GLYPH_DATA_H".toList ∧
      headerGuard "glyph-data.h".toList ≠ guardAsStated "glyph-data.h".toList ∧
      headerGuard "out/glyph_data.h".toList = "OUT/GLYPH_DATA_H".toList ∧
      guardAsStated "out/glyph_data.h".toList = "OUT_GLYPH_DATA_H".toList ∧
      (main LP64 sampleWorld sampleArgv).file = some ("glyph-data.h".toList, sampleDocument) ∧
      ("#ifndef GLYPH-DATA_H\n#define GLYPH-DATA_H\n\n".toList ++
        "// Glyph texture data".toList) <+: sampleDocument :=
  ⟨by decide, by decide, by decide, by decide, by decide, sampleRun_file,
    ⟨sampleDocument.drop 64, by decide⟩⟩

/-! ## C6 -/

/-- C6. For a bitmap of `n` bytes (`n` the value of the `unsigned int` variable `size`),
the loop writes each byte as `0x` and exactly two lowercase hexadecimal digits, a comma
separator after every value but the last, and a line break after value number `k`
exactly when `k` is a multiple of 16 and `k < n`; for `n = 0` it writes nothing. -/
theorem array_body_format (dm : DataModel) (buffer : List Nat) (out : OStream)
    (hw : out.width = 0) (hsize : buffer.length < 2 ^ dm.intBits)
    (hb : ∀ b ∈ buffer, b < 256) :
    appended out (writeBytes dm buffer buffer.length out) = arrayBodySpec buffer ∧
      (buffer.length = 0 → writeBytes dm buffer buffer.length out = out) := by
  refine ⟨?_, ?_⟩
  · rw [appended_eq (writeBytes_buf dm buffer buffer.length out hw)]
    exact bodyText_eq_spec dm buffer hsize hb
  · intro h0
    rw [h0]
    rfl

/-- Witness of C6 on a four-byte bitmap. -/
theorem array_body_format_witness :
    OStream.init.width = 0 ∧ [0, 255, 10, 1].length < 2 ^ LP64.intBits ∧
      (∀ b ∈ [0, 255, 10, 1], b < 256) ∧
      appended OStream.init (writeBytes LP64 [0, 255, 10, 1] [0, 255, 10, 1].length OStream.init) =
        "0x00, 0xff, 0x0a, 0x01".toList :=
  ⟨rfl, by decide, by decide,
    (array_body_format LP64 [0, 255, 10, 1] OStream.init rfl (by decide) (by decide)).1⟩

/-! ## C7 -/

/-- C7. For every codepoint list and every outcome of the rasterizer, the glyph section
is the concatenation, in input order, of one declaration block per codepoint whose
rasterization succeeds and nothing for one that fails, with one diagnostic per failing
codepoint; blocks are neither merged nor deduplicated, so a codepoint that succeeds
twice gives two blocks with the same names. For `[0x1F714, 0x0, 0x1F70D]` with `0x0`
failing, the output is the block of `0x1F714` then that of `0x1F70D`, with one
diagnostic for `0x0`. -/
theorem glyph_section {Face : Type} (dm : DataModel) (w : World Face) (cps : List Nat)
    (face : Face) (out : OStream) (cerr : List (List Char)) (hw : out.width = 0) :
    appended out (processCodepoints dm w cps face out cerr).2.1 =
        ((loadAll w face cps).map (blockOf dm)).flatten ∧
      (processCodepoints dm w cps face out cerr).2.2 =
        cerr ++ (loadAll w face cps).filterMap diagnosticOf ∧
      (∀ c : Nat, (w.FT_Load_Char face c).1 = 0 →
        (w.FT_Load_Char (w.FT_Load_Char face c).2 c).1 = 0 →
        appended out (processCodepoints dm w [c, c] face out cerr).2.1 =
          glyphBlock dm c (w.glyph (w.FT_Load_Char face c).2) ++
            glyphBlock dm c (w.glyph (w.FT_Load_Char (w.FT_Load_Char face c).2 c).2)) ∧
      ((w.FT_Load_Char face 0x1F714).1 = 0 →
        (w.FT_Load_Char (w.FT_Load_Char face 0x1F714).2 0x0).1 ≠ 0 →
        (w.FT_Load_Char (w.FT_Load_Char (w.FT_Load_Char face 0x1F714).2 0x0).2 0x1F70D).1 = 0 →
        appended out (processCodepoints dm w [0x1F714, 0x0, 0x1F70D] face out cerr).2.1 =
            glyphBlock dm 0x1F714 (w.glyph (w.FT_Load_Char face 0x1F714).2) ++
              glyphBlock dm 0x1F70D (w.glyph (w.FT_Load_Char
                (w.FT_Load_Char (w.FT_Load_Char face 0x1F714).2 0x0).2 0x1F70D).2) ∧
          (processCodepoints dm w [0x1F714, 0x0, 0x1F70D] face out cerr).2.2 =
            cerr ++ ["ERROR: Failed to load Glyph U+0".toList]) := by
  refine ⟨?_, ?_, ?_, ?_⟩
  · exact appended_eq (processCodepoints_eq dm w cps face out cerr hw).1
  · exact (processCodepoints_eq dm w cps face out cerr hw).2.2
  · intro c h1 h2
    rw [appended_eq (processCodepoints_eq dm w [c, c] face out cerr hw).1]
    simp [loadAll, h1, h2, blockOf]
  · intro h1 h2 h3
    have h := processCodepoints_eq dm w [0x1F714, 0x0, 0x1F70D] face out cerr hw
    rw [appended_eq h.1, h.2.2]
    constructor
    · simp [loadAll, h1, h2, h3, blockOf]
    · simp only [loadAll, h1, h2, h3, if_true, if_false, List.filterMap_cons,
        List.filterMap_nil, diagnosticOf]
      rfl

/-- Witness of C7 on `[0x1F714, 0x0, 0x1F70D]` with a rasterizer failing on `0x0`. -/
theorem glyph_section_witness :
    OStream.init.width = 0 ∧
      appended OStream.init
          (processCodepoints LP64 sampleWorld [0x1F714, 0x0, 0x1F70D] 0 OStream.init []).2.1 =
        glyphBlock LP64 0x1F714 ⟨[0x14, 1], 2, 1, 3, -4, -65⟩ ++
          glyphBlock LP64 0x1F70D ⟨[0x0D, 1], 2, 1, 3, -4, -65⟩ ∧
      (processCodepoints LP64 sampleWorld [0x1F714, 0x0, 0x1F70D] 0 OStream.init []).2.2 =
        ["ERROR: Failed to load Glyph U+0".toList] :=
  ⟨rfl, (glyph_section LP64 sampleWorld [0x1F714, 0x0, 0x1F70D] 0 OStream.init [] rfl).2.2.2
    (by decide) (by decide) (by decide)⟩

/-! ## C8 -/

/-- C8. For every argument vector, `main` returns 1 without any FreeType call and
without opening the output file unless every argument after `argv[0]` is a recognised
flag followed by a value, the output name and the codepoint string are non-empty and at
least one codepoint parses; in that case it goes on to initialise FreeType. In
particular it returns 1 so when an argument in flag position is not `-o`, `-c` or `-f`,
and when the last argument has no value after it. -/
theorem argument_validation {Face : Type} (dm : DataModel) (w : World Face)
    (argv : List (List Char)) :
    (¬ GoodArgs dm (argv.drop 1) →
        (main dm w argv).status = 1 ∧ (main dm w argv).calls = [] ∧
          (main dm w argv).file = none) ∧
      ((main dm w argv).calls ≠ [] ↔ GoodArgs dm (argv.drop 1)) ∧
      (GoodArgs dm (argv.drop 1) →
        (main dm w argv).calls.head? = some Call.FT_Init_FreeType) ∧
      (∀ (pairs : List (List Char × List Char)) (a : List Char) (rest : List (List Char)),
        (∀ p ∈ pairs, isFlag p.1 = true) → isFlag a = false →
        argv.drop 1 = flagArgs pairs ++ a :: rest →
        (main dm w argv).status = 1 ∧ (main dm w argv).calls = []) ∧
      (∀ (pairs : List (List Char × List Char)) (a : List Char),
        (∀ p ∈ pairs, isFlag p.1 = true) → argv.drop 1 = flagArgs pairs ++ [a] →
        (main dm w argv).status = 1 ∧ (main dm w argv).calls = []) := by
  have hiff : (main dm w argv).calls ≠ [] ↔ GoodArgs dm (argv.drop 1) := by
    constructor
    · intro h
      by_contra hg
      exact h (main_of_not_good dm w argv hg).2.1
    · exact main_of_good dm w argv
  refine ⟨main_of_not_good dm w argv, hiff, ?_, ?_, ?_⟩
  · intro hg
    exact main_calls_head dm w argv (hiff.2 hg)
  · intro pairs a rest hp ha hargs
    have : parseArgs (argv.drop 1) defaultOptions = none := by
      rw [hargs, parseArgs_flagArgs_append pairs hp, parseArgs_bad_flag a rest _ ha]
    rw [main_of_parseArgs_none dm w argv this]
    exact ⟨rfl, rfl⟩
  · intro pairs a hp hargs
    have : parseArgs (argv.drop 1) defaultOptions = none := by
      rw [hargs, parseArgs_flagArgs_append pairs hp, parseArgs_singleton]
    rw [main_of_parseArgs_none dm w argv this]
    exact ⟨rfl, rfl⟩

/-- Witness of C8: the sample command line is accepted and reaches FreeType, and the
command line `-o out.h -c` is refused. -/
theorem argument_validation_witness :
    GoodArgs LP64 (sampleArgv.drop 1) ∧
      (main LP64 sampleWorld sampleArgv).calls.head? = some Call.FT_Init_FreeType ∧
      (main LP64 sampleWorld ["generate_glyph_data".toList, "-o".toList, "out.h".toList,
        "-c".toList]).status = 1 ∧
      (main LP64 sampleWorld ["generate_glyph_data".toList, "-o".toList, "out.h".toList,
        "-c".toList]).calls = [] :=
  have hgood : GoodArgs LP64 (sampleArgv.drop 1) :=
    ⟨[("-o".toList, "glyph-data.h".toList), ("-c".toList, "1F714,0,1F70D".toList)],
      by decide, by decide, by decide, by decide, by rw [parseCodepoints_eq]; decide⟩
  ⟨hgood, (argument_validation LP64 sampleWorld sampleArgv).2.2.1 hgood,
    (argument_validation LP64 sampleWorld ["generate_glyph_data".toList, "-o".toList,
      "out.h".toList, "-c".toList]).2.2.2.2 [("-o".toList, "out.h".toList)] "-c".toList
      (by decide) (by decide)⟩

/-! ## C9 -/

/-- C10. A single trailing comma creates no token: for a non-empty string that does
not end with a comma, appending a comma changes neither the result nor the reported
errors, and the empty string gives the empty list and no error; a leading comma, and
the second of two adjacent commas, each give one invalid-codepoint error for the empty
token and no element. -/
theorem trailing_comma_no_token (dm : DataModel) :
    (∀ s : List Char, s ≠ [] → s.getLast? ≠ some ',' →
        parseCodepoints dm (s ++ [',']) = parseCodepoints dm s) ∧
      parseCodepoints dm [] = ([], []) ∧
      (∀ b : List Char, parseCodepoints dm (',' :: b) =
        ((parseCodepoints dm b).1, invalidCodepointLine [] :: (parseCodepoints dm b).2)) ∧
      (∀ a b : List Char, parseCodepoints dm (a ++ ',' :: ',' :: b) =
        ((parseCodepoints dm (a ++ [','])).1 ++ (parseCodepoints dm b).1,
          (parseCodepoints dm (a ++ [','])).2 ++
            invalidCodepointLine [] :: (parseCodepoints dm b).2)) := by
  have htrim : trimItem [] = [] := rfl
  have hempty : stoul dm [] = .error .invalid_argument := rfl
  have hv : tokenValue dm [] = none := by simp only [tokenValue, htrim, hempty]
  have he : tokenError dm [] = some (invalidCodepointLine []) := by
    simp only [tokenError, htrim, hempty]
  refine ⟨?_, ?_, ?_, ?_⟩
  · intro s hne hlast
    rw [parseCodepoints_eq, parseCodepoints_eq, tokens_append_comma s hne hlast]
  · rw [parseCodepoints_eq]; rfl
  · intro b
    simp only [parseCodepoints_eq, tokens_cons_comma, List.filterMap_cons, hv, he]
  · intro a b
    simp only [parseCodepoints_eq]
    rw [tokens_append_comma_cons a (',' :: b), tokens_cons_comma]
    simp only [List.filterMap_append, List.filterMap_cons, hv, he]

/-- Witness of C10 on `"1F714"` against `"1F714,"`. -/
theorem trailing_comma_no_token_witness :
    "1F714".toList ≠ [] ∧ "1F714".toList.getLast? ≠ some ',' ∧
      parseCodepoints LP64 ("1F714".toList ++ [',']) = parseCodepoints LP64 "1F714".toList :=
  ⟨by decide, by decide,
    (trailing_comma_no_token LP64).1 "1F714".toList (by decide) (by decide)⟩

end FontToGlyph
